import Mathlib

/-!
Verification of the K3NG configuration-tool core against its specification.

The Lean definitions below are shallow embeddings of the Python source:

* `k3ng_config_tool/parsers/preprocessor_parser.py`
  (`PreprocessorParser.parse`, `PreprocessorParser.resolve_conditionals`,
  `ConditionalBlock.is_active`),
* `k3ng_config_tool/validators/dependency_validator.py`
  (`DependencyValidator.validate` and its four rule families,
  `DependencyValidator.get_auto_fixes`),
* `k3ng_config_tool/validators/pin_validator.py` (`PinValidator.validate`),
* `k3ng_config_tool/boards/board_database.py`
  (`BoardDatabase.get_board`, `BoardDatabase.detect_pin_conflicts`),
* `k3ng_config_tool/validators/value_validator.py`
  (`ValueValidator._validate_array`).

Python dicts are modelled as insertion-ordered association lists (assignment
replaces the value at the existing key position, otherwise appends), Python
sets of strings as lists used only through membership, and Python numbers as
rationals.  Lines of input text are modelled after the regex classification
layer: one constructor per directive shape recognised by the parser, plus a
catch-all for lines the parser skips.
-/

namespace K3NG

/-! ## Definitions: the shallow embedding of the source -/

inductive CondType where
  | ifdefT
  | ifndefT
  | ifDefinedT
  | ifNotDefinedT
deriving DecidableEq, Repr

def CondType.value : CondType → String
  | .ifdefT => "ifdef"
  | .ifndefT => "ifndef"
  | .ifDefinedT => "if defined"
  | .ifNotDefinedT => "if !defined"

structure DefineNode where
  name : String
  value : Option String
  lineNumber : Nat
  comment : Option String
  conditionalScope : Option String
  isActive : Bool
  isCommented : Bool
deriving DecidableEq, Repr

inductive CondBlock where
  | mk (conditionType : CondType) (condition : String)
      (startLine : Nat) (endLine : Nat)
      (defines : List DefineNode) (elseDefines : List DefineNode)
      (nestedBlocks : List CondBlock) (inElse : Bool)

def CondBlock.conditionType : CondBlock → CondType
  | .mk t _ _ _ _ _ _ _ => t

def CondBlock.condition : CondBlock → String
  | .mk _ c _ _ _ _ _ _ => c

def CondBlock.startLine : CondBlock → Nat
  | .mk _ _ sl _ _ _ _ _ => sl

def CondBlock.endLine : CondBlock → Nat
  | .mk _ _ _ el _ _ _ _ => el

def CondBlock.defines : CondBlock → List DefineNode
  | .mk _ _ _ _ ds _ _ _ => ds

def CondBlock.elseDefines : CondBlock → List DefineNode
  | .mk _ _ _ _ _ eds _ _ => eds

def CondBlock.nestedBlocks : CondBlock → List CondBlock
  | .mk _ _ _ _ _ _ ns _ => ns

def CondBlock.inElse : CondBlock → Bool
  | .mk _ _ _ _ _ _ _ ie => ie

def isActiveCond (t : CondType) (c : String) (active : List String) : Bool :=
  match t with
  | .ifdefT => c ∈ active
  | .ifndefT => c ∉ active
  | .ifDefinedT => c ∈ active
  | .ifNotDefinedT => c ∉ active

def CondBlock.isActiveFor (b : CondBlock) (active : List String) : Bool :=
  isActiveCond b.conditionType b.condition active

inductive PLine where
  | defineL (name : String) (value : Option String) (comment : Option String)
      (commented : Bool)
  | ifdefL (cond : String)
  | ifndefL (cond : String)
  | ifDefinedL (cond : String)
  | ifNotDefinedL (cond : String)
  | elseL
  | endifL
  | undefL (name : String)
  | otherL
deriving DecidableEq, Repr

structure ParseState where
  defines : List (String × DefineNode)
  conditionals : List CondBlock
  errors : List String
  stack : List CondBlock
  lineNum : Nat

def dictInsert (d : List (String × DefineNode)) (k : String) (v : DefineNode) :
    List (String × DefineNode) :=
  match d with
  | [] => [(k, v)]
  | (k0, v0) :: rest =>
      if k0 = k then (k0, v) :: rest else (k0, v0) :: dictInsert rest k v

def dictSetInactive (d : List (String × DefineNode)) (k : String) :
    List (String × DefineNode) :=
  d.map (fun p => if p.1 = k then (p.1, { p.2 with isActive := false }) else p)

def CondBlock.addDefine (b : CondBlock) (n : DefineNode) : CondBlock :=
  match b with
  | .mk t c sl el ds eds ns ie =>
      if ie then .mk t c sl el ds (eds ++ [n]) ns ie
      else .mk t c sl el (ds ++ [n]) eds ns ie

def CondBlock.setInElse (b : CondBlock) : CondBlock :=
  match b with
  | .mk t c sl el ds eds ns _ => .mk t c sl el ds eds ns true

def CondBlock.setEndLine (b : CondBlock) (n : Nat) : CondBlock :=
  match b with
  | .mk t c sl _ ds eds ns ie => .mk t c sl n ds eds ns ie

def CondBlock.addNested (b : CondBlock) (child : CondBlock) : CondBlock :=
  match b with
  | .mk t c sl el ds eds ns ie => .mk t c sl el ds eds (ns ++ [child]) ie

def endifErrorMsg (n : Nat) : String :=
  "Line " ++ toString n ++ ": #endif without matching #ifdef/#ifndef"

def stepLine (s : ParseState) (l : PLine) : ParseState :=
  let n := s.lineNum
  match l with
  | .defineL name val cmt commented =>
      let scope := s.stack.head?.map CondBlock.condition
      let node : DefineNode :=
        ⟨name, val, n, cmt, scope, !commented, commented⟩
      let stack2 := match s.stack with
        | [] => ([] : List CondBlock)
        | b :: rest => b.addDefine node :: rest
      { s with defines := dictInsert s.defines name node, stack := stack2,
               lineNum := n + 1 }
  | .ifdefL c =>
      { s with stack := CondBlock.mk .ifdefT c n 0 [] [] [] false :: s.stack,
               lineNum := n + 1 }
  | .ifndefL c =>
      { s with stack := CondBlock.mk .ifndefT c n 0 [] [] [] false :: s.stack,
               lineNum := n + 1 }
  | .ifDefinedL c =>
      { s with stack := CondBlock.mk .ifDefinedT c n 0 [] [] [] false :: s.stack,
               lineNum := n + 1 }
  | .ifNotDefinedL c =>
      { s with stack := CondBlock.mk .ifNotDefinedT c n 0 [] [] [] false :: s.stack,
               lineNum := n + 1 }
  | .elseL =>
      let stack2 := match s.stack with
        | [] => ([] : List CondBlock)
        | b :: rest => b.setInElse :: rest
      { s with stack := stack2, lineNum := n + 1 }
  | .endifL =>
      match s.stack with
      | [] => { s with errors := s.errors ++ [endifErrorMsg n], lineNum := n + 1 }
      | b :: rest =>
          let b2 := b.setEndLine n
          match rest with
          | [] => { s with stack := [], conditionals := s.conditionals ++ [b2],
                           lineNum := n + 1 }
          | p :: ps => { s with stack := p.addNested b2 :: ps, lineNum := n + 1 }
  | .undefL name =>
      { s with defines := dictSetInactive s.defines name, lineNum := n + 1 }
  | .otherL => { s with lineNum := n + 1 }

def initState : ParseState := ⟨[], [], [], [], 1⟩

def scanLines (lines : List PLine) : ParseState :=
  lines.foldl stepLine initState

def unclosedErrors (s : ParseState) : List String :=
  s.stack.reverse.map (fun b =>
    "Line " ++ toString b.startLine ++ ": Unclosed #" ++
      b.conditionType.value ++ " " ++ b.condition)

structure ParseResult where
  defines : List (String × DefineNode)
  conditionals : List CondBlock
  success : Bool
  errors : List String

def parseLines (lines : List PLine) : ParseResult :=
  let s := scanLines lines
  let errs := s.errors ++ unclosedErrors s
  ⟨s.defines, s.conditionals, errs.isEmpty, errs⟩

def addName (acc : List String) (n : String) : List String :=
  if n ∈ acc then acc else acc ++ [n]

def addDefineNames (acc : List String) (ds : List DefineNode) : List String :=
  ds.foldl (fun a d => addName a d.name) acc

def resolveBlocks (acc : List String) : List CondBlock → List String
  | [] => acc
  | .mk t c _sl _el ds eds ns _ie :: rest =>
      let acc2 :=
        if isActiveCond t c acc then resolveBlocks (addDefineNames acc ds) ns
        else addDefineNames acc eds
      resolveBlocks acc2 rest

def resolveConditionals (activeDefines : List String)
    (conditionals : List CondBlock) : List String :=
  resolveBlocks activeDefines conditionals

def exampleLines : List PLine :=
  [PLine.ifdefL "X",
   PLine.defineL "Y" (some "1") none false,
   PLine.elseL,
   PLine.defineL "Z" (some "1") none false,
   PLine.endifL]

def defineNames (lines : List PLine) : List String :=
  lines.filterMap fun l =>
    match l with
    | .defineL n _ _ _ => some n
    | _ => none

def nestingFrom (n : Nat) : List PLine → Option Nat
  | [] => some n
  | l :: ls =>
      match l with
      | .ifdefL _ => nestingFrom (n + 1) ls
      | .ifndefL _ => nestingFrom (n + 1) ls
      | .ifDefinedL _ => nestingFrom (n + 1) ls
      | .ifNotDefinedL _ => nestingFrom (n + 1) ls
      | .endifL =>
          match n with
          | 0 => none
          | m + 1 => nestingFrom m ls
      | _ => nestingFrom n ls

def c3LinesBalanced : List PLine :=
  [PLine.defineL "A" none none false,
   PLine.ifdefL "B",
   PLine.defineL "C" (some "2") none false,
   PLine.endifL]

def c3LinesUnclosed : List PLine :=
  [PLine.ifdefL "X", PLine.defineL "Y" none none false]

inductive Severity where
  | error
  | warning
  | info
deriving DecidableEq, Repr

structure ValidationIssue where
  severity : Severity
  ruleType : String
  message : String
  affectedFeatures : List String
  suggestion : Option String
  autoFixable : Bool
deriving DecidableEq, Repr

structure ValidationResult where
  passed : Bool
  errors : List ValidationIssue
  warnings : List ValidationIssue
  info : List ValidationIssue
  autoFixes : List String
deriving DecidableEq, Repr

structure MutexRule where
  group : String
  features : List String
  maxCount : Option Nat
  minCount : Option Nat
  whenCond : Option String
  errorMessage : String
deriving DecidableEq, Repr

structure ReqRule where
  feature : String
  requires : Option (List String)
  requiresAny : Option (List String)
  conflictsWith : Option (List String)
  errorMessage : String
deriving DecidableEq, Repr

inductive TriggerSpec where
  | one (s : String)
  | many (l : List String)
deriving DecidableEq, Repr

structure AutoRule where
  trigger : Option TriggerSpec
  triggerAny : Option (List String)
  autoEnable : List String
  message : String
deriving DecidableEq, Repr

structure CondDisableRule where
  feature : String
  requires : Option (List String)
  message : String
deriving DecidableEq, Repr

structure Rules where
  mutualExclusivity : List MutexRule
  requiredDependencies : List ReqRule
  autoEnablement : List AutoRule
  conditionalDisable : List CondDisableRule
deriving DecidableEq, Repr

def mutexApplies (active : List String) (rule : MutexRule) : Bool :=
  match rule.whenCond with
  | some w => decide (w ∈ active)
  | none => true

def checkMutexRule (active : List String) (res : ValidationResult)
    (rule : MutexRule) : ValidationResult :=
  if mutexApplies active rule then
    let maxCount := rule.maxCount.getD 1
    let minCount := rule.minCount.getD 0
    let activeInGroup := rule.features.filter (fun f => decide (f ∈ active))
    let count := activeInGroup.length
    let res1 :=
      if maxCount < count then
        { res with errors := res.errors ++
            [⟨.error, "mutual_exclusivity", rule.errorMessage, activeInGroup,
              some ("Disable all but one of: " ++
                String.intercalate ", " activeInGroup), false⟩] }
      else res
    if count < minCount then
      { res1 with errors := res1.errors ++
          [⟨.error, "mutual_exclusivity", rule.errorMessage, rule.features,
            some ("Enable at least " ++ toString minCount ++ " from: " ++
              String.intercalate ", " rule.features), false⟩] }
    else res1
  else res

def checkReqRule (active : List String) (res : ValidationResult)
    (rule : ReqRule) : ValidationResult :=
  if decide (rule.feature ∈ active) then
    let res1 := match rule.requires with
      | none => res
      | some required =>
          let missing := required.filter (fun r => decide (r ∉ active))
          if missing.isEmpty then res
          else
            { res with
              errors := res.errors ++
                [⟨.error, "required_dependency", rule.errorMessage,
                  rule.feature :: missing,
                  some ("Enable: " ++ String.intercalate ", " missing), true⟩],
              autoFixes := res.autoFixes ++ missing }
    let res2 := match rule.requiresAny with
      | none => res1
      | some requiredAny =>
          if requiredAny.any (fun r => decide (r ∈ active)) then res1
          else
            { res1 with
              errors := res1.errors ++
                [⟨.error, "required_dependency", rule.errorMessage,
                  rule.feature :: requiredAny,
                  some ("Enable one of: " ++
                    String.intercalate ", " requiredAny), false⟩] }
    match rule.conflictsWith with
    | none => res2
    | some conflicts =>
        let conflicting := conflicts.filter (fun c => decide (c ∈ active))
        if conflicting.isEmpty then res2
        else
          { res2 with
            errors := res2.errors ++
              [⟨.error, "conflict", rule.errorMessage,
                rule.feature :: conflicting,
                some ("Disable: " ++ String.intercalate ", " conflicting),
                true⟩] }
  else res

def checkAutoRule (active : List String) (res : ValidationResult)
    (rule : AutoRule) : ValidationResult :=
  let se1 := match rule.trigger with
    | none => false
    | some (.one t) => decide (t ∈ active)
    | some (.many ts) => ts.any (fun t => decide (t ∈ active))
  let shouldEnable := match rule.triggerAny with
    | none => se1
    | some ts => ts.any (fun t => decide (t ∈ active))
  if shouldEnable then
    let missing := rule.autoEnable.filter (fun f => decide (f ∉ active))
    if missing.isEmpty then res
    else
      { res with
        info := res.info ++
          [⟨.info, "auto_enablement", rule.message, missing,
            some ("Auto-enable: " ++ String.intercalate ", " missing), true⟩],
        autoFixes := res.autoFixes ++ missing }
  else res

def checkCondDisableRule (active : List String) (res : ValidationResult)
    (rule : CondDisableRule) : ValidationResult :=
  if decide (rule.feature ∈ active) then
    match rule.requires with
    | none => res
    | some required =>
        let missing := required.filter (fun r => decide (r ∉ active))
        if missing.isEmpty then res
        else
          { res with
            warnings := res.warnings ++
              [⟨.warning, "conditional_disable", rule.message,
                rule.feature :: missing,
                some ("Either enable " ++ String.intercalate ", " missing ++
                  " or disable " ++ rule.feature), false⟩] }
  else res

def emptyResult : ValidationResult := ⟨true, [], [], [], []⟩

def validate (rules : Rules) (activeFeatures activeOptions : List String) :
    ValidationResult :=
  let active := activeFeatures ++ activeOptions
  let r1 := rules.mutualExclusivity.foldl (checkMutexRule active) emptyResult
  let r2 := rules.requiredDependencies.foldl (checkReqRule active) r1
  let r3 := rules.autoEnablement.foldl (checkAutoRule active) r2
  let r4 := rules.conditionalDisable.foldl (checkCondDisableRule active) r3
  { r4 with passed := r4.errors.isEmpty }

structure AutoFixSuggestions where
  enable : List String
  disable : List String
deriving DecidableEq, Repr

def getAutoFixes (rules : Rules) (activeFeatures activeOptions : List String) :
    AutoFixSuggestions :=
  let result := validate rules activeFeatures activeOptions
  ⟨result.autoFixes, []⟩

def conflictIssue (rule : ReqRule) (conflicting : List String) : ValidationIssue :=
  ⟨.error, "conflict", rule.errorMessage, rule.feature :: conflicting,
    some ("Disable: " ++ String.intercalate ", " conflicting), true⟩

def protocolRule : MutexRule :=
  ⟨"protocol", ["YAESU", "EASYCOM", "DCU1"], some 1, none, none,
    "Only one protocol emulation can be enabled"⟩

def protocolRules : Rules := ⟨[protocolRule], [], [], []⟩

def conflictRule : ReqRule := ⟨"S", none, none, some ["C"], "S conflicts with C"⟩

def conflictRules : Rules := ⟨[], [conflictRule], [], []⟩

inductive PinValue where
  | pint (n : Int)
  | pstr (s : String)
  | pnone
deriving DecidableEq, Repr

def pinValueStr : PinValue → String
  | .pint n => toString n
  | .pstr s => s
  | .pnone => "None"

structure BoardDefinition where
  boardName : String
  digitalRange : List Int
  pwmPins : List Int
  interruptPins : List Int
  analogNames : List String
  i2cReserved : List PinValue
  spiReserved : List PinValue
deriving DecidableEq, Repr

structure BoardDatabase where
  boards : List (String × BoardDefinition)
deriving DecidableEq, Repr

def getBoard (db : BoardDatabase) (boardId : String) : Option BoardDefinition :=
  (db.boards.find? (fun p => decide (p.1 = boardId))).map Prod.snd

def pinReqPwm : List String :=
  ["azimuth_speed_voltage", "elevation_speed_voltage"]

def pinReqInterrupt : List String :=
  ["az_incremental_encoder_a_pin", "az_incremental_encoder_b_pin",
   "el_incremental_encoder_a_pin", "el_incremental_encoder_b_pin",
   "az_position_pulse_pin", "el_position_pulse_pin",
   "az_pulse_start_pin", "el_pulse_start_pin"]

def pinReqAnalog : List String :=
  ["rotator_analog_az", "rotator_analog_el",
   "azimuth_analog_input", "elevation_analog_input",
   "analog_az_full_ccw", "analog_az_full_cw",
   "analog_el_0_degrees", "analog_el_max_elevation"]

def i2cFeatureSet : List String :=
  ["FEATURE_ADAFRUIT_I2C_LCD", "FEATURE_YWROBOT_I2C_DISPLAY",
   "FEATURE_WIRE_SUPPORT", "FEATURE_RTC_DS1307", "FEATURE_RTC_PCF8583",
   "FEATURE_ADXL345_USING_ADAFRUIT_LIB",
   "FEATURE_ADXL345_USING_LOVE_ELECTRON_LIB",
   "FEATURE_HMC5883L", "FEATURE_LSM303", "FEATURE_QMC5883"]

def spiFeatureSet : List String := ["FEATURE_SPI", "FEATURE_ETHERNET"]

def lookupPin (assignments : List (String × PinValue)) (name : String) :
    Option PinValue :=
  (assignments.find? (fun p => decide (p.1 = name))).map Prod.snd

def isEnabledPin (v : PinValue) : Bool :=
  !(decide (v = PinValue.pint 0)) && !(decide (v = PinValue.pstr "0")) &&
  !(decide (v = PinValue.pnone)) && !(decide (v = PinValue.pstr "disabled"))

def activePinFilter (assignments : List (String × PinValue)) :
    List (String × PinValue) :=
  assignments.filter (fun p => isEnabledPin p.2)

def pwmCapIssues (board : BoardDefinition)
    (act : List (String × PinValue)) : List ValidationIssue :=
  pinReqPwm.filterMap (fun pinName =>
    match lookupPin act pinName with
    | some (.pint v) =>
        if v ∈ board.pwmPins then none
        else some ⟨.error, "pin_capability",
          "Pin " ++ pinName ++ " (" ++ toString v ++ ") requires PWM capability",
          [pinName],
          some ("Change " ++ pinName ++ " to a PWM-capable pin: " ++
            toString board.pwmPins), false⟩
    | _ => none)

def interruptCapIssues (board : BoardDefinition)
    (act : List (String × PinValue)) : List ValidationIssue :=
  pinReqInterrupt.filterMap (fun pinName =>
    match lookupPin act pinName with
    | some (.pint v) =>
        if v ∈ board.interruptPins then none
        else some ⟨.error, "pin_capability",
          "Pin " ++ pinName ++ " (" ++ toString v ++
            ") requires interrupt capability",
          [pinName],
          some ("Change " ++ pinName ++ " to an interrupt-capable pin: " ++
            toString board.interruptPins), false⟩
    | _ => none)

def analogCapIssues (board : BoardDefinition)
    (act : List (String × PinValue)) : List ValidationIssue :=
  pinReqAnalog.filterMap (fun pinName =>
    match lookupPin act pinName with
    | some (.pstr s) =>
        if s.startsWith "A" then
          if s ∈ board.analogNames then none
          else some ⟨.error, "pin_capability",
            "Pin " ++ pinName ++ " (" ++ s ++
              ") requires analog input capability",
            [pinName],
            some ("Change " ++ pinName ++ " to a valid analog pin: " ++
              toString board.analogNames), false⟩
        else none
    | _ => none)

structure PinConflict where
  pin : PinValue
  assignments : List String
  message : String
deriving DecidableEq, Repr

def usageInsert (m : List (PinValue × List String)) (v : PinValue)
    (n : String) : List (PinValue × List String) :=
  match m with
  | [] => [(v, [n])]
  | (v0, ns) :: rest =>
      if v0 = v then (v0, ns ++ [n]) :: rest
      else (v0, ns) :: usageInsert rest v n

def skipVal (v : PinValue) : Bool :=
  decide (v = PinValue.pint 0) || decide (v = PinValue.pnone)

def buildUsageMap (assignments : List (String × PinValue)) :
    List (PinValue × List String) :=
  assignments.foldl
    (fun m p => if skipVal p.2 then m else usageInsert m p.2 p.1) []

def mkConflict (p : PinValue × List String) : PinConflict :=
  ⟨p.1, p.2, "Pin " ++ pinValueStr p.1 ++
    " is assigned to multiple functions: " ++ String.intercalate ", " p.2⟩

def detectPinConflicts (db : BoardDatabase) (boardId : String)
    (assignments : List (String × PinValue)) : List PinConflict :=
  match getBoard db boardId with
  | none => []
  | some _ =>
      (buildUsageMap assignments).filterMap (fun p =>
        if 1 < p.2.length then some (mkConflict p) else none)

def reservedWarnings (busName : String) (tail : String)
    (reserved : List PinValue) (act : List (String × PinValue)) :
    List ValidationIssue :=
  act.filterMap (fun p =>
    if p.2 ∈ reserved then
      some ⟨.warning, "reserved_pin",
        "Pin " ++ p.1 ++ " (" ++ pinValueStr p.2 ++ ") is reserved for " ++
          busName,
        [p.1],
        some (tail ++ " features are enabled. Ensure pin " ++
          pinValueStr p.2 ++ " is not used for other purposes."), false⟩
    else none)

def rangeIssues (board : BoardDefinition)
    (act : List (String × PinValue)) : List ValidationIssue :=
  act.filterMap (fun p =>
    match p.2 with
    | .pint v =>
        if v > 99 then none
        else
          match board.digitalRange with
          | [mn, mx] =>
              if v < mn ∨ v > mx then
                some ⟨.error, "pin_range",
                  "Pin " ++ p.1 ++ " (" ++ toString v ++
                    ") is out of valid range",
                  [p.1],
                  some ("Valid pin range for " ++ board.boardName ++ ": " ++
                    toString mn ++ "-" ++ toString mx), false⟩
              else none
          | _ => none
    | _ => none)

def unknownBoardIssue (boardId : String) : ValidationIssue :=
  ⟨.error, "board_validation", "Unknown board: " ++ boardId, [],
    some "Select a valid Arduino board", false⟩

def conflictToIssue (c : PinConflict) : ValidationIssue :=
  ⟨.error, "pin_conflict", c.message, c.assignments,
    some ("Assign different pins to avoid conflict on pin " ++
      pinValueStr c.pin), false⟩

def validatePins (db : BoardDatabase) (boardId : String)
    (assignments : List (String × PinValue)) (features : List String) :
    ValidationResult :=
  match getBoard db boardId with
  | none => ⟨false, [unknownBoardIssue boardId], [], [], []⟩
  | some board =>
      let act := activePinFilter assignments
      let capErrs := pwmCapIssues board act ++ interruptCapIssues board act ++
        analogCapIssues board act
      let cflErrs := (detectPinConflicts db boardId act).map conflictToIssue
      let i2cWarns :=
        if i2cFeatureSet.any (fun f => decide (f ∈ features)) then
          reservedWarnings "I2C" "I2C" board.i2cReserved act
        else []
      let spiWarns :=
        if spiFeatureSet.any (fun f => decide (f ∈ features)) then
          reservedWarnings "SPI" "SPI/Ethernet" board.spiReserved act
        else []
      let rngErrs := rangeIssues board act
      let errs := capErrs ++ cflErrs ++ rngErrs
      ⟨errs.isEmpty, errs, i2cWarns ++ spiWarns, [], []⟩

def groupLookup (m : List (PinValue × List String)) (v : PinValue) :
    List String :=
  match m.find? (fun p => decide (p.1 = v)) with
  | some p => p.2
  | none => []

def usageKeys (m : List (PinValue × List String)) : List PinValue :=
  m.map Prod.fst

def namesAssigned (act : List (String × PinValue)) (v : PinValue) :
    List String :=
  (act.filter (fun p => decide (p.2 = v))).map Prod.fst

def megaBoard : BoardDefinition :=
  ⟨"Arduino Mega 2560", [0, 53],
   [2, 3, 4, 5, 6, 7, 8, 9, 10, 11, 12, 13, 44, 45, 46],
   [2, 3, 18, 19, 20, 21], ["A0", "A1", "A2", "A3"],
   [.pint 20, .pint 21], [.pint 50, .pint 51, .pint 52, .pint 53]⟩

def testDb : BoardDatabase := ⟨[("arduino_mega_2560", megaBoard)]⟩

def c6Assignments : List (String × PinValue) :=
  [("rotate_cw", PinValue.pint 10), ("brake_az", PinValue.pint 10),
   ("rotate_ccw", PinValue.pint 0), ("brake_el", PinValue.pint 0)]

structure ValueRule where
  min : Option ℚ
  max : Option ℚ
  arrayMinSize : Option Nat
  arrayMaxSize : Option Nat
  consistencyCheck : Option String
  consistencyMessage : Option String
deriving DecidableEq, Repr

def arraySizeIssues (settingName : String) (value : List (Option ℚ))
    (rule : ValueRule) : List ValidationIssue :=
  (match rule.arrayMinSize with
   | some mn =>
       if value.length < mn then
         [⟨.error, "array_size",
           settingName ++ " has " ++ toString value.length ++
             " entries, minimum is " ++ toString mn,
           [settingName],
           some ("Add at least " ++ toString (mn - value.length) ++
             " more entries"), false⟩]
       else []
   | none => []) ++
  (match rule.arrayMaxSize with
   | some mx =>
       if mx < value.length then
         [⟨.error, "array_size",
           settingName ++ " has " ++ toString value.length ++
             " entries, maximum is " ++ toString mx,
           [settingName],
           some ("Remove " ++ toString (value.length - mx) ++ " entries"),
           false⟩]
       else []
   | none => []) 

def ascendingWarnAux (settingName msg : String) (i : Nat) :
    List (Option ℚ) → List ValidationIssue
  | a :: b :: rest =>
      (match a, b with
       | some x, some y =>
           if x ≥ y then
             [⟨.warning, "array_consistency",
               settingName ++ "[" ++ toString i ++ "] = " ++ toString x ++
                 " >= " ++ settingName ++ "[" ++ toString (i + 1) ++ "] = " ++
                 toString y,
               [settingName], some msg, false⟩]
           else []
       | _, _ => []) ++
      ascendingWarnAux settingName msg (i + 1) (b :: rest)
  | _ => []

def ascendingWarnings (settingName : String) (value : List (Option ℚ))
    (rule : ValueRule) : List ValidationIssue :=
  if rule.consistencyCheck = some "ascending" then
    ascendingWarnAux settingName
      (rule.consistencyMessage.getD "Values should be in ascending order")
      0 value
  else []

def elementIssuesAux (settingName : String) (mn mx : Option ℚ) (i : Nat) :
    List (Option ℚ) → List ValidationIssue
  | [] => []
  | e :: rest =>
      (match e with
       | some x =>
           (match mn with
            | some m =>
                if x < m then
                  [⟨.error, "value_range",
                    settingName ++ "[" ++ toString i ++ "] = " ++ toString x ++
                      " is below minimum " ++ toString m,
                    [settingName], some "Set to value in range", false⟩]
                else []
            | none => []) ++
           (match mx with
            | some m =>
                if x > m then
                  [⟨.error, "value_range",
                    settingName ++ "[" ++ toString i ++ "] = " ++ toString x ++
                      " exceeds maximum " ++ toString m,
                    [settingName], some "Set to value in range", false⟩]
                else []
            | none => [])
       | none => []) ++
      elementIssuesAux settingName mn mx (i + 1) rest

def applyArraySize (settingName : String) (value : List (Option ℚ))
    (rule : ValueRule) (res : ValidationResult) : ValidationResult :=
  let issues := arraySizeIssues settingName value rule
  { res with errors := res.errors ++ issues,
             passed := res.passed && issues.isEmpty }

def applyAscendingCheck (settingName : String) (value : List (Option ℚ))
    (rule : ValueRule) (res : ValidationResult) : ValidationResult :=
  { res with warnings := res.warnings ++
      ascendingWarnings settingName value rule }

def applyElementRange (settingName : String) (value : List (Option ℚ))
    (rule : ValueRule) (res : ValidationResult) : ValidationResult :=
  let issues := elementIssuesAux settingName rule.min rule.max 0 value
  { res with errors := res.errors ++ issues,
             passed := res.passed && issues.isEmpty }

def validateArray (settingName : String) (value : List (Option ℚ))
    (rule : ValueRule) (res : ValidationResult) : ValidationResult :=
  applyElementRange settingName value rule
    (applyAscendingCheck settingName value rule
      (applyArraySize settingName value rule res))

def outOfOrderPair (p : Option ℚ × Option ℚ) : Bool :=
  match p.1, p.2 with
  | some x, some y => decide (x ≥ y)
  | _, _ => false

/-! ## Theorems: lemmas, claims, witnesses and counterexamples -/

theorem mem_addName {x : String} {acc : List String} (n : String)
    (h : x ∈ acc) : x ∈ addName acc n := by
  unfold addName
  split
  · exact h
  · exact List.mem_append_left _ h

theorem mem_addName_cases {x : String} {acc : List String} {n : String}
    (h : x ∈ addName acc n) : x ∈ acc ∨ x = n := by
  unfold addName at h
  split at h
  · exact Or.inl h
  · rcases List.mem_append.1 h with h1 | h1
    · exact Or.inl h1
    · exact Or.inr (List.mem_singleton.1 h1)

theorem mem_addDefineNames {x : String} {acc : List String}
    (ds : List DefineNode) (h : x ∈ acc) : x ∈ addDefineNames acc ds := by
  induction ds generalizing acc with
  | nil => exact h
  | cons d rest ih => exact ih (mem_addName d.name h)

theorem mem_addDefineNames_cases {x : String} {acc : List String}
    {ds : List DefineNode} (h : x ∈ addDefineNames acc ds) :
    x ∈ acc ∨ x ∈ ds.map DefineNode.name := by
  induction ds generalizing acc with
  | nil => exact Or.inl h
  | cons d rest ih =>
      rcases ih h with h1 | h1
      · rcases mem_addName_cases h1 with h2 | h2
        · exact Or.inl h2
        · exact Or.inr (by simp [h2])
      · exact Or.inr (by simp [h1] )

theorem mem_resolveBlocks : ∀ (acc : List String) (bs : List CondBlock),
    ∀ x ∈ acc, x ∈ resolveBlocks acc bs
  | acc, [] => by
      intro x hx
      simpa [resolveBlocks] using hx
  | acc, .mk t c sl el ds eds ns ie :: rest => by
      intro x hx
      simp only [resolveBlocks]
      by_cases h : isActiveCond t c acc
      · rw [if_pos h]
        exact mem_resolveBlocks _ rest x
          (mem_resolveBlocks _ ns x (mem_addDefineNames ds hx))
      · rw [if_neg h]
        exact mem_resolveBlocks _ rest x (mem_addDefineNames eds hx)

theorem dictInsert_keys (d : List (String × DefineNode)) (k : String)
    (v : DefineNode) :
    (dictInsert d k v).map Prod.fst = addName (d.map Prod.fst) k := by
  induction d with
  | nil => simp [dictInsert, addName]
  | cons p rest ih =>
      obtain ⟨k0, v0⟩ := p
      by_cases hk : k0 = k
      · subst hk
        simp [dictInsert, addName]
      · simp only [dictInsert, if_neg hk, List.map_cons, ih, addName]
        by_cases hm : k ∈ rest.map Prod.fst
        · simp [hm, Ne.symm hk]
        · simp [hm, Ne.symm hk]

theorem dictSetInactive_keys (d : List (String × DefineNode)) (k : String) :
    (dictSetInactive d k).map Prod.fst = d.map Prod.fst := by
  induction d with
  | nil => rfl
  | cons p rest ih =>
      simp only [dictSetInactive, List.map_cons] at *
      split <;> simp_all

theorem scan_keys : ∀ (lines : List PLine) (s : ParseState),
    ((lines.foldl stepLine s).defines).map Prod.fst =
      (defineNames lines).foldl addName (s.defines.map Prod.fst)
  | [], s => rfl
  | l :: ls, s => by
      cases l with
      | defineL n v c b =>
          simp only [List.foldl_cons, defineNames, List.filterMap_cons]
          rw [scan_keys ls]
          simp [stepLine, dictInsert_keys, defineNames]
      | undefL n =>
          simp only [List.foldl_cons]
          rw [scan_keys ls]
          simp [stepLine, dictSetInactive_keys, defineNames]
      | ifdefL c =>
          simp only [List.foldl_cons]
          rw [scan_keys ls]
          simp [stepLine, defineNames]
      | ifndefL c =>
          simp only [List.foldl_cons]
          rw [scan_keys ls]
          simp [stepLine, defineNames]
      | ifDefinedL c =>
          simp only [List.foldl_cons]
          rw [scan_keys ls]
          simp [stepLine, defineNames]
      | ifNotDefinedL c =>
          simp only [List.foldl_cons]
          rw [scan_keys ls]
          simp [stepLine, defineNames]
      | elseL =>
          simp only [List.foldl_cons]
          rw [scan_keys ls]
          simp [stepLine, defineNames]
      | endifL =>
          simp only [List.foldl_cons]
          rw [scan_keys ls]
          cases h : (s.stack) with
          | nil => simp [stepLine, h, defineNames]
          | cons b rest =>
            cases rest <;> simp [stepLine, h, defineNames]
      | otherL =>
          simp only [List.foldl_cons]
          rw [scan_keys ls]
          simp [stepLine, defineNames]

theorem stepLine_stack_len_define (s : ParseState) (n : String)
    (v : Option String) (c : Option String) (b : Bool) :
    (stepLine s (PLine.defineL n v c b)).stack.length = s.stack.length ∧
    (stepLine s (PLine.defineL n v c b)).errors = s.errors := by
  cases h : s.stack <;> simp [stepLine, h]

theorem scan_stack_errors : ∀ (lines : List PLine) (s : ParseState) (k : Nat),
    nestingFrom s.stack.length lines = some k →
    ((lines.foldl stepLine s).stack.length = k ∧
     (lines.foldl stepLine s).errors = s.errors)
  | [], s, k => by
      intro h
      simp only [nestingFrom, Option.some_inj] at h
      simp [h]
  | l :: ls, s, k => by
      intro h
      cases l with
      | defineL n v c b =>
          simp only [nestingFrom] at h
          simp only [List.foldl_cons]
          obtain ⟨h1, h2⟩ := stepLine_stack_len_define s n v c b
          have := scan_stack_errors ls (stepLine s (PLine.defineL n v c b)) k
            (by rw [h1]; exact h)
          rw [h2] at this
          exact this
      | ifdefL c =>
          simp only [nestingFrom] at h
          simp only [List.foldl_cons]
          have := scan_stack_errors ls (stepLine s (PLine.ifdefL c)) k
            (by simpa [stepLine] using h)
          simpa [stepLine] using this
      | ifndefL c =>
          simp only [nestingFrom] at h
          simp only [List.foldl_cons]
          have := scan_stack_errors ls (stepLine s (PLine.ifndefL c)) k
            (by simpa [stepLine] using h)
          simpa [stepLine] using this
      | ifDefinedL c =>
          simp only [nestingFrom] at h
          simp only [List.foldl_cons]
          have := scan_stack_errors ls (stepLine s (PLine.ifDefinedL c)) k
            (by simpa [stepLine] using h)
          simpa [stepLine] using this
      | ifNotDefinedL c =>
          simp only [nestingFrom] at h
          simp only [List.foldl_cons]
          have := scan_stack_errors ls (stepLine s (PLine.ifNotDefinedL c)) k
            (by simpa [stepLine] using h)
          simpa [stepLine] using this
      | elseL =>
          simp only [nestingFrom] at h
          simp only [List.foldl_cons]
          have hlen : (stepLine s PLine.elseL).stack.length = s.stack.length := by
            cases hs : s.stack <;> simp [stepLine, hs]
          have herr : (stepLine s PLine.elseL).errors = s.errors := by
            cases hs : s.stack <;> simp [stepLine, hs]
          have := scan_stack_errors ls (stepLine s PLine.elseL) k
            (by rw [hlen]; exact h)
          rw [herr] at this
          exact this
      | endifL =>
          simp only [nestingFrom] at h
          cases hs : s.stack with
          | nil =>
              rw [hs] at h
              simp at h
          | cons b rest =>
              rw [hs] at h
              simp only [List.length_cons] at h
              have hlen : (stepLine s PLine.endifL).stack.length = rest.length := by
                cases rest <;> simp [stepLine, hs]
              have herr : (stepLine s PLine.endifL).errors = s.errors := by
                cases rest <;> simp [stepLine, hs]
              simp only [List.foldl_cons]
              have := scan_stack_errors ls (stepLine s PLine.endifL) k
                (by rw [hlen]; exact h)
              rw [herr] at this
              exact this
      | undefL n =>
          simp only [nestingFrom] at h
          simp only [List.foldl_cons]
          have := scan_stack_errors ls (stepLine s (PLine.undefL n)) k
            (by simpa [stepLine] using h)
          simpa [stepLine] using this
      | otherL =>
          simp only [nestingFrom] at h
          simp only [List.foldl_cons]
          have := scan_stack_errors ls (stepLine s PLine.otherL) k
            (by simpa [stepLine] using h)
          simpa [stepLine] using this

theorem foldl_addName_fresh : ∀ (names : List String) (ks : List String),
    names.Nodup → (∀ n ∈ names, n ∉ ks) →
    names.foldl addName ks = ks ++ names
  | [], ks => by simp
  | n :: rest, ks => by
      intro hnd hf
      have hn : n ∉ ks := hf n (by simp)
      simp only [List.foldl_cons, addName, if_neg hn]
      rw [foldl_addName_fresh rest (ks ++ [n]) (List.Nodup.of_cons hnd)]
      · simp
      · intro m hm
        simp only [List.mem_append, List.mem_singleton]
        push_neg
        exact ⟨fun hc => hf m (by simp [hm]) hc,
               fun hc => (List.nodup_cons.1 hnd).1 (hc ▸ hm)⟩

theorem replicate_endif_defines : ∀ (k : Nat) (s : ParseState),
    ((List.replicate k PLine.endifL).foldl stepLine s).defines = s.defines
  | 0, s => rfl
  | k + 1, s => by
      simp only [List.replicate_succ, List.foldl_cons]
      rw [replicate_endif_defines k]
      cases hs : s.stack with
      | nil => simp [stepLine, hs]
      | cons b rest => cases rest <;> simp [stepLine, hs]

theorem claim_C3_parse (lines : List PLine) (N : Nat) :
    (nestingFrom 0 lines = some 0 → (defineNames lines).Nodup →
      (defineNames lines).length = N →
      (parseLines lines).success = true ∧ (parseLines lines).defines.length = N ∧
      (parseLines lines).errors = []) ∧
    (∀ m : Nat, nestingFrom 0 lines = some (m + 1) →
      (parseLines lines).success = false ∧
      (parseLines lines).errors.length = m + 1 ∧
      (parseLines lines).defines =
        (parseLines (lines ++ List.replicate (m + 1) PLine.endifL)).defines) := by
  constructor
  · intro hbal hnd hlen
    have hse := scan_stack_errors lines initState 0 (by simpa [initState] using hbal)
    have hstack : (lines.foldl stepLine initState).stack = [] :=
      List.length_eq_zero.1 hse.1
    have herr : (lines.foldl stepLine initState).errors = [] := by
      simpa [initState] using hse.2
    have hkeys := scan_keys lines initState
    rw [foldl_addName_fresh _ _ hnd (by simp [initState])] at hkeys
    have hdeflen : (lines.foldl stepLine initState).defines.length = N := by
      have h2 := congrArg List.length hkeys
      simpa [initState, hlen] using h2
    have herrsEq : (parseLines lines).errors = [] := by
      show (lines.foldl stepLine initState).errors ++
        unclosedErrors (lines.foldl stepLine initState) = []
      rw [herr]
      simp [unclosedErrors, hstack]
    refine ⟨?_, hdeflen, herrsEq⟩
    have hrfl : (parseLines lines).success = (parseLines lines).errors.isEmpty := rfl
    rw [hrfl, herrsEq]
    rfl
  · intro m hbal
    have hse := scan_stack_errors lines initState (m + 1)
      (by simpa [initState] using hbal)
    have herr : (lines.foldl stepLine initState).errors = [] := by
      simpa [initState] using hse.2
    have hstlen := hse.1
    have herrsLen : (parseLines lines).errors.length = m + 1 := by
      show ((lines.foldl stepLine initState).errors ++
        unclosedErrors (lines.foldl stepLine initState)).length = m + 1
      rw [herr]
      simpa [unclosedErrors] using hstlen
    refine ⟨?_, herrsLen, ?_⟩
    · have hrfl : (parseLines lines).success = (parseLines lines).errors.isEmpty := rfl
      cases hE : (parseLines lines).errors with
      | nil =>
          rw [hE] at herrsLen
          simp at herrsLen
      | cons e es =>
          rw [hrfl, hE]
          rfl
    · show (lines.foldl stepLine initState).defines = _
      have h2 : (parseLines (lines ++ List.replicate (m + 1) PLine.endifL)).defines
          = ((lines ++ List.replicate (m + 1) PLine.endifL).foldl stepLine
              initState).defines := rfl
      rw [h2, List.foldl_append, replicate_endif_defines]

theorem claim_C3_parse_witness :
    ((parseLines c3LinesBalanced).success = true ∧
     (parseLines c3LinesBalanced).defines.length = 2 ∧
     (parseLines c3LinesBalanced).errors = []) ∧
    ((parseLines c3LinesUnclosed).success = false ∧
     (parseLines c3LinesUnclosed).errors.length = 0 + 1 ∧
     (parseLines c3LinesUnclosed).defines =
       (parseLines (c3LinesUnclosed ++ List.replicate (0 + 1) PLine.endifL)).defines) :=
  ⟨(claim_C3_parse c3LinesBalanced 2).1 (by decide) (by decide) (by decide),
   (claim_C3_parse c3LinesUnclosed 0).2 0 (by decide)⟩

theorem claim_C9_closure_superset (base : List String) (blocks : List CondBlock)
    (x : String) (hx : x ∈ base) : x ∈ resolveConditionals base blocks :=
  mem_resolveBlocks base blocks x hx

theorem claim_C9_closure_superset_witness :
    ("W" : String) ∈ resolveConditionals ["W"] (parseLines exampleLines).conditionals :=
  claim_C9_closure_superset ["W"] (parseLines exampleLines).conditionals "W" (by decide)

theorem claim_C4_inactive_else_only (t : CondType) (c : String) (sl el : Nat)
    (ds eds : List DefineNode) (ns : List CondBlock) (ie : Bool)
    (rest : List CondBlock) (acc : List String)
    (h : isActiveCond t c acc = false) :
    resolveBlocks acc (CondBlock.mk t c sl el ds eds ns ie :: rest) =
      resolveBlocks (addDefineNames acc eds) rest ∧
    ∀ x ∈ addDefineNames acc eds, x ∈ acc ∨ x ∈ eds.map DefineNode.name := by
  constructor
  · simp only [resolveBlocks]
    rw [if_neg (by simp [h])]
  · intro x hx
    exact mem_addDefineNames_cases hx

theorem claim_C4_inactive_else_only_witness :
    resolveBlocks []
        [CondBlock.mk .ifdefT "X" 1 5 []
          [⟨"Z", some "1", 4, none, some "X", true, false⟩] [] true] =
      resolveBlocks
        (addDefineNames [] [⟨"Z", some "1", 4, none, some "X", true, false⟩]) [] ∧
    ∀ x ∈ addDefineNames [] [⟨"Z", some "1", 4, none, some "X", true, false⟩],
      x ∈ ([] : List String) ∨
      x ∈ ([⟨"Z", some "1", 4, none, some "X", true, false⟩] :
        List DefineNode).map DefineNode.name :=
  claim_C4_inactive_else_only .ifdefT "X" 1 5 []
    [⟨"Z", some "1", 4, none, some "X", true, false⟩] [] true [] [] (by decide)

theorem claim_C1_worked_example_counterexample :
    "X" ∈ resolveConditionals ["X"] (parseLines exampleLines).conditionals ∧
    "X" ∉ (["Y"] : List String) := by
  refine ⟨?_, by decide⟩
  have hres : resolveConditionals ["X"] (parseLines exampleLines).conditionals
      = ["X", "Y"] := by
    simp [resolveConditionals, parseLines, exampleLines, scanLines, initState,
      stepLine, unclosedErrors, resolveBlocks, isActiveCond, addDefineNames,
      addName, dictInsert, CondBlock.addDefine, CondBlock.setInElse,
      CondBlock.setEndLine, CondBlock.condition, CondBlock.conditionType]
  rw [hres]
  decide

theorem claim_C1_worked_example_amended :
    resolveConditionals [] (parseLines exampleLines).conditionals = ["Z"] ∧
    resolveConditionals ["X"] (parseLines exampleLines).conditionals = ["X", "Y"] := by
  constructor <;>
    simp [resolveConditionals, parseLines, exampleLines, scanLines, initState,
      stepLine, unclosedErrors, resolveBlocks, isActiveCond, addDefineNames,
      addName, dictInsert, CondBlock.addDefine, CondBlock.setInElse,
      CondBlock.setEndLine, CondBlock.condition, CondBlock.conditionType]

theorem claim_C10_unmatched_else_endif (s : ParseState) (h : s.stack = []) :
    stepLine s PLine.elseL = { s with lineNum := s.lineNum + 1 } ∧
    stepLine s PLine.endifL =
      { s with errors := s.errors ++ [endifErrorMsg s.lineNum],
               lineNum := s.lineNum + 1 } ∧
    ∀ lines : List PLine, (scanLines lines).errors ≠ [] →
      (parseLines lines).success = false := by
  obtain ⟨d, cs, es, st, n⟩ := s
  subst h
  refine ⟨by simp [stepLine], by simp [stepLine], ?_⟩
  intro lines hne
  have hrfl : (parseLines lines).success =
      ((scanLines lines).errors ++ unclosedErrors (scanLines lines)).isEmpty := rfl
  cases hE : (scanLines lines).errors with
  | nil => exact absurd hE hne
  | cons e es2 =>
      rw [hrfl, hE]
      rfl

theorem claim_C10_unmatched_else_endif_witness :
    stepLine initState PLine.elseL =
      { initState with lineNum := initState.lineNum + 1 } ∧
    stepLine initState PLine.endifL =
      { initState with errors := initState.errors ++ [endifErrorMsg initState.lineNum],
                       lineNum := initState.lineNum + 1 } ∧
    ∀ lines : List PLine, (scanLines lines).errors ≠ [] →
      (parseLines lines).success = false :=
  claim_C10_unmatched_else_endif initState rfl

theorem checkMutexRule_errors_mono (active : List String)
    (res : ValidationResult) (rule : MutexRule) {e : ValidationIssue}
    (he : e ∈ res.errors) : e ∈ (checkMutexRule active res rule).errors := by
  simp only [checkMutexRule]
  split_ifs <;> simp_all

theorem checkReqRule_errors_mono (active : List String)
    (res : ValidationResult) (rule : ReqRule) {e : ValidationIssue}
    (he : e ∈ res.errors) : e ∈ (checkReqRule active res rule).errors := by
  simp only [checkReqRule]
  repeat' first
    | split_ifs
    | split
  all_goals simp_all

theorem checkAutoRule_errors (active : List String) (res : ValidationResult)
    (rule : AutoRule) : (checkAutoRule active res rule).errors = res.errors := by
  simp only [checkAutoRule]
  repeat' first
    | split_ifs
    | split
  all_goals simp_all

theorem checkCondDisableRule_errors (active : List String)
    (res : ValidationResult) (rule : CondDisableRule) :
    (checkCondDisableRule active res rule).errors = res.errors := by
  simp only [checkCondDisableRule]
  repeat' first
    | split_ifs
    | split
  all_goals simp_all

theorem foldl_errors_mono {α : Type} (step : ValidationResult → α → ValidationResult)
    (mono : ∀ (r : ValidationResult) (a : α) (e : ValidationIssue),
      e ∈ r.errors → e ∈ (step r a).errors) :
    ∀ (l : List α) (r : ValidationResult) (e : ValidationIssue),
      e ∈ r.errors → e ∈ (l.foldl step r).errors
  | [], _, _, he => he
  | a :: rest, r, e, he =>
      foldl_errors_mono step mono rest (step r a) e (mono r a e he)

theorem foldl_errors_eq {α : Type} (step : ValidationResult → α → ValidationResult)
    (hpres : ∀ (r : ValidationResult) (a : α), (step r a).errors = r.errors) :
    ∀ (l : List α) (r : ValidationResult), (l.foldl step r).errors = r.errors
  | [], _ => rfl
  | a :: rest, r => by
      rw [List.foldl_cons, foldl_errors_eq step hpres rest, hpres]

theorem checkReqRule_conflict_mem (active : List String)
    (res : ValidationResult) (rule : ReqRule) (cs : List String)
    (hc : rule.conflictsWith = some cs) (hf : rule.feature ∈ active)
    (hne : cs.filter (fun c => decide (c ∈ active)) ≠ []) :
    conflictIssue rule (cs.filter (fun c => decide (c ∈ active))) ∈
      (checkReqRule active res rule).errors := by
  simp only [checkReqRule, hc]
  rw [if_pos (by simpa using hf)]
  rw [if_neg (by simpa using hne)]
  simp [conflictIssue]

theorem checkMutexRule_autoFixes (active : List String)
    (res : ValidationResult) (rule : MutexRule) :
    (checkMutexRule active res rule).autoFixes = res.autoFixes := by
  simp only [checkMutexRule]
  split_ifs <;> rfl

theorem checkReqRule_autoFixes_noreq (active : List String)
    (res : ValidationResult) (rule : ReqRule) (h : rule.requires = none) :
    (checkReqRule active res rule).autoFixes = res.autoFixes := by
  simp only [checkReqRule, h]
  repeat' first
    | split_ifs
    | split
  all_goals rfl

theorem checkCondDisableRule_autoFixes (active : List String)
    (res : ValidationResult) (rule : CondDisableRule) :
    (checkCondDisableRule active res rule).autoFixes = res.autoFixes := by
  simp only [checkCondDisableRule]
  repeat' first
    | split_ifs
    | split
  all_goals rfl

theorem foldl_autoFixes_eq {α : Type} (step : ValidationResult → α → ValidationResult) :
    ∀ (l : List α),
      (∀ (r : ValidationResult) (a : α), a ∈ l → (step r a).autoFixes = r.autoFixes) →
      ∀ (r : ValidationResult), (l.foldl step r).autoFixes = r.autoFixes
  | [], _, _ => rfl
  | a :: rest, hpres, r => by
      rw [List.foldl_cons,
        foldl_autoFixes_eq step rest
          (fun r2 a2 ha2 => hpres r2 a2 (List.mem_cons_of_mem a ha2)),
        hpres r a (List.mem_cons_self a rest)]

theorem claim_C2_conflict_rule_counterexample :
    (validate conflictRules ["S", "C"] []).errors.map
      (fun e => (e.ruleType, e.affectedFeatures, e.autoFixable)) =
      [("conflict", ["S", "C"], true)] ∧
    "C" ∉ (validate conflictRules ["S", "C"] []).autoFixes ∧
    (validate conflictRules ["S", "C"] []).autoFixes = [] ∧
    (getAutoFixes conflictRules ["S", "C"] []).disable = [] := by
  refine ⟨by decide, by decide, by decide, by decide⟩

theorem claim_C2_conflict_rule (rules : Rules) (af ao : List String)
    (rule : ReqRule) (hr : rule ∈ rules.requiredDependencies) (cs : List String)
    (hc : rule.conflictsWith = some cs) (hf : rule.feature ∈ af ++ ao)
    (hne : cs.filter (fun c => decide (c ∈ af ++ ao)) ≠ []) :
    conflictIssue rule (cs.filter (fun c => decide (c ∈ af ++ ao))) ∈
      (validate rules af ao).errors ∧
    (getAutoFixes rules af ao).disable = [] ∧
    (rules.autoEnablement = [] →
      (∀ r ∈ rules.requiredDependencies, r.requires = none) →
      (validate rules af ao).autoFixes = []) := by
  refine ⟨?_, rfl, ?_⟩
  · have hval : (validate rules af ao).errors =
        (rules.requiredDependencies.foldl (checkReqRule (af ++ ao))
          (rules.mutualExclusivity.foldl (checkMutexRule (af ++ ao))
            emptyResult)).errors := by
      simp only [validate]
      rw [foldl_errors_eq _ (checkCondDisableRule_errors (af ++ ao)),
        foldl_errors_eq _ (checkAutoRule_errors (af ++ ao))]
    rw [hval]
    obtain ⟨l1, l2, hsplit⟩ := List.append_of_mem hr
    rw [hsplit, List.foldl_append, List.foldl_cons]
    exact foldl_errors_mono _
      (fun r a e he => checkReqRule_errors_mono (af ++ ao) r a he) l2 _ _
      (checkReqRule_conflict_mem (af ++ ao) _ rule cs hc hf hne)
  · intro hae hnoreq
    simp only [validate, hae, List.foldl_nil]
    rw [foldl_autoFixes_eq _ _
        (fun r a _ => checkCondDisableRule_autoFixes (af ++ ao) r a),
      foldl_autoFixes_eq _ _
        (fun r a ha => checkReqRule_autoFixes_noreq (af ++ ao) r a (hnoreq a ha)),
      foldl_autoFixes_eq _ _
        (fun r a _ => checkMutexRule_autoFixes (af ++ ao) r a)]
    rfl

theorem claim_C2_conflict_rule_witness :
    conflictIssue conflictRule
        (["C"].filter (fun c => decide (c ∈ ["S", "C"] ++ ([] : List String)))) ∈
      (validate conflictRules ["S", "C"] []).errors ∧
    (getAutoFixes conflictRules ["S", "C"] []).disable = [] ∧
    (validate conflictRules ["S", "C"] []).autoFixes = [] :=
  have T := claim_C2_conflict_rule conflictRules ["S", "C"] [] conflictRule
    (by decide) ["C"] rfl (by decide) (by decide)
  ⟨T.1, T.2.1, T.2.2 rfl (by decide)⟩

theorem claim_C5_mutex (active : List String) :
    ((["YAESU", "EASYCOM", "DCU1"].filter (fun f => decide (f ∈ active))).length = 2 →
      (validate protocolRules active []).passed = false ∧
      (validate protocolRules active []).errors.length = 1 ∧
      (validate protocolRules active []).errors.map (fun e => e.affectedFeatures) =
        [["YAESU", "EASYCOM", "DCU1"].filter (fun f => decide (f ∈ active))]) ∧
    ((["YAESU", "EASYCOM", "DCU1"].filter (fun f => decide (f ∈ active))).length = 1 →
      (validate protocolRules active []).errors = []) := by
  constructor
  · intro h
    simp [validate, protocolRules, protocolRule, checkMutexRule, mutexApplies,
      emptyResult, h]
  · intro h
    simp [validate, protocolRules, protocolRule, checkMutexRule, mutexApplies,
      emptyResult, h]

theorem claim_C5_mutex_witness :
    ((validate protocolRules ["YAESU", "EASYCOM"] []).passed = false ∧
     (validate protocolRules ["YAESU", "EASYCOM"] []).errors.length = 1 ∧
     (validate protocolRules ["YAESU", "EASYCOM"] []).errors.map
       (fun e => e.affectedFeatures) =
       [["YAESU", "EASYCOM", "DCU1"].filter
         (fun f => decide (f ∈ (["YAESU", "EASYCOM"] : List String)))]) ∧
    (validate protocolRules ["DCU1"] []).errors = [] :=
  ⟨(claim_C5_mutex ["YAESU", "EASYCOM"]).1 (by decide),
   (claim_C5_mutex ["DCU1"]).2 (by decide)⟩

theorem groupLookup_usageInsert_same (m : List (PinValue × List String))
    (v : PinValue) (n : String) :
    groupLookup (usageInsert m v n) v = groupLookup m v ++ [n] := by
  induction m with
  | nil => simp [usageInsert, groupLookup, List.find?]
  | cons p rest ih =>
      obtain ⟨v0, ns⟩ := p
      by_cases h : v0 = v
      · subst h
        simp [usageInsert, groupLookup, List.find?]
      · simp only [usageInsert, if_neg h]
        simp only [groupLookup, List.find?] at *
        rw [show (decide (v0 = v)) = false by simp [h]]
        simpa using ih

theorem groupLookup_usageInsert_other (m : List (PinValue × List String))
    (v w : PinValue) (n : String) (hw : w ≠ v) :
    groupLookup (usageInsert m v n) w = groupLookup m w := by
  induction m with
  | nil => simp [usageInsert, groupLookup, List.find?, Ne.symm hw]
  | cons p rest ih =>
      obtain ⟨v0, ns⟩ := p
      by_cases h : v0 = v
      · subst h
        simp only [usageInsert, if_pos rfl]
        simp [groupLookup, List.find?, Ne.symm hw]
      · simp only [usageInsert, if_neg h]
        by_cases h2 : v0 = w
        · subst h2
          simp [groupLookup, List.find?]
        · simp only [groupLookup, List.find?] at *
          rw [show (decide (v0 = w)) = false by simp [h2]]
          simpa using ih

theorem usageKeys_usageInsert (m : List (PinValue × List String))
    (v : PinValue) (n : String) :
    usageKeys (usageInsert m v n) =
      if v ∈ usageKeys m then usageKeys m else usageKeys m ++ [v] := by
  induction m with
  | nil => simp [usageInsert, usageKeys]
  | cons p rest ih =>
      obtain ⟨v0, ns⟩ := p
      by_cases h : v0 = v
      · subst h
        simp [usageInsert, usageKeys]
      · simp only [usageInsert, if_neg h, usageKeys, List.map_cons] at *
        rw [ih]
        by_cases hm : v ∈ usageKeys rest
        · simp [usageKeys] at hm
          simp [hm]
        · simp [usageKeys] at hm
          simp [hm, Ne.symm h]

theorem usageKeys_nodup_insert (m : List (PinValue × List String))
    (v : PinValue) (n : String) (h : (usageKeys m).Nodup) :
    (usageKeys (usageInsert m v n)).Nodup := by
  rw [usageKeys_usageInsert]
  split
  · exact h
  · next hv => simpa [List.nodup_append] using ⟨h, hv⟩

theorem usageInsert_entries_ne (m : List (PinValue × List String))
    (v : PinValue) (n : String)
    (h : ∀ p ∈ m, p.2 ≠ []) : ∀ p ∈ usageInsert m v n, p.2 ≠ [] := by
  induction m with
  | nil =>
      intro p hp
      simp [usageInsert] at hp
      simp [hp]
  | cons q rest ih =>
      obtain ⟨v0, ns⟩ := q
      by_cases hv : v0 = v
      · subst hv
        intro p hp
        simp only [usageInsert, if_pos rfl] at hp
        rcases List.mem_cons.1 hp with h1 | h1
        · subst h1
          simp
        · exact h p (List.mem_cons_of_mem _ h1)
      · intro p hp
        simp only [usageInsert, if_neg hv] at hp
        rcases List.mem_cons.1 hp with h1 | h1
        · subst h1
          exact h _ (List.mem_cons_self _ _)
        · exact ih (fun q hq => h q (List.mem_cons_of_mem _ hq)) p h1

theorem groupLookup_mem (m : List (PinValue × List String)) (v : PinValue)
    (h : v ∈ usageKeys m) : (v, groupLookup m v) ∈ m := by
  induction m with
  | nil => simp [usageKeys] at h
  | cons p rest ih =>
      obtain ⟨v0, ns⟩ := p
      by_cases hv : v0 = v
      · subst hv
        simp [groupLookup, List.find?]
      · simp only [usageKeys, List.map_cons, List.mem_cons] at h
        rcases h with h1 | h1
        · exact absurd h1.symm hv
        · have := ih h1
          simp only [groupLookup, List.find?] at *
          rw [show (decide (v0 = v)) = false by simp [hv]]
          exact List.mem_cons_of_mem _ this

theorem entry_eq_groupLookup (m : List (PinValue × List String))
    (v : PinValue) (l : List String) (hm : (v, l) ∈ m)
    (hnd : (usageKeys m).Nodup) : l = groupLookup m v := by
  induction m with
  | nil => simp at hm
  | cons p rest ih =>
      obtain ⟨v0, ns⟩ := p
      have hndk : (v0 :: usageKeys rest).Nodup := by
        simpa only [usageKeys, List.map_cons] using hnd
      have hnd2 := List.nodup_cons.1 hndk
      rcases List.mem_cons.1 hm with h1 | h1
      · rw [Prod.mk.injEq] at h1
        obtain ⟨rfl, rfl⟩ := h1
        simp [groupLookup, List.find?]
      · have hvk : v ∈ usageKeys rest := by
          simpa [usageKeys] using List.mem_map_of_mem Prod.fst h1
        have hne : v0 ≠ v := fun hc => hnd2.1 (hc ▸ hvk)
        simp only [groupLookup, List.find?]
        rw [show (decide (v0 = v)) = false by simp [hne]]
        exact ih h1 hnd2.2

theorem groupLookup_fold (asg : List (String × PinValue)) :
    ∀ (m : List (PinValue × List String)) (v : PinValue),
    groupLookup
      (asg.foldl (fun m2 p => if skipVal p.2 then m2 else usageInsert m2 p.2 p.1) m) v =
      groupLookup m v ++
        (if skipVal v then []
         else (asg.filter (fun p => decide (p.2 = v))).map Prod.fst) := by
  induction asg with
  | nil =>
      intro m v
      split <;> simp
  | cons p rest ih =>
      intro m v
      obtain ⟨n, pv⟩ := p
      by_cases hsv : skipVal pv
      · simp only [List.foldl_cons, if_pos hsv]
        rw [ih]
        by_cases hv : skipVal v
        · simp [hv]
        · have hne : pv ≠ v := fun hc => hv (hc ▸ hsv)
          simp [hv, List.filter_cons, hne]
      · simp only [List.foldl_cons, if_neg hsv]
        rw [ih]
        by_cases hv : pv = v
        · subst hv
          rw [groupLookup_usageInsert_same]
          simp [hsv, List.filter_cons, List.append_assoc]
        · rw [groupLookup_usageInsert_other _ _ _ _ (Ne.symm hv)]
          by_cases hskv : skipVal v
          · simp [hskv]
          · simp [hskv, List.filter_cons, hv]

theorem usage_fold_keys_nodup (asg : List (String × PinValue)) :
    ∀ (m : List (PinValue × List String)), (usageKeys m).Nodup →
    (usageKeys
      (asg.foldl (fun m2 p => if skipVal p.2 then m2 else usageInsert m2 p.2 p.1) m)).Nodup := by
  induction asg with
  | nil => exact fun m h => h
  | cons p rest ih =>
      intro m h
      simp only [List.foldl_cons]
      by_cases hsv : skipVal p.2
      · rw [if_pos hsv]
        exact ih m h
      · rw [if_neg hsv]
        exact ih _ (usageKeys_nodup_insert m p.2 p.1 h)

theorem usage_fold_entries_ne (asg : List (String × PinValue)) :
    ∀ (m : List (PinValue × List String)), (∀ q ∈ m, q.2 ≠ []) →
    ∀ q ∈ asg.foldl (fun m2 p => if skipVal p.2 then m2 else usageInsert m2 p.2 p.1) m,
      q.2 ≠ [] := by
  induction asg with
  | nil => exact fun m h => h
  | cons p rest ih =>
      intro m h
      simp only [List.foldl_cons]
      by_cases hsv : skipVal p.2
      · rw [if_pos hsv]
        exact ih m h
      · rw [if_neg hsv]
        exact ih _ (usageInsert_entries_ne m p.2 p.1 h)

theorem usage_fold_keys_from (asg : List (String × PinValue)) :
    ∀ (m : List (PinValue × List String)) (v : PinValue),
    v ∈ usageKeys
      (asg.foldl (fun m2 p => if skipVal p.2 then m2 else usageInsert m2 p.2 p.1) m) →
    v ∈ usageKeys m ∨ ∃ p ∈ asg, p.2 = v := by
  induction asg with
  | nil => exact fun m v h => Or.inl h
  | cons p rest ih =>
      intro m v h
      simp only [List.foldl_cons] at h
      by_cases hsv : skipVal p.2
      · rw [if_pos hsv] at h
        rcases ih m v h with h1 | ⟨q, hq, hv⟩
        · exact Or.inl h1
        · exact Or.inr ⟨q, List.mem_cons_of_mem p hq, hv⟩
      · rw [if_neg hsv] at h
        rcases ih _ v h with h1 | ⟨q, hq, hv⟩
        · rw [usageKeys_usageInsert] at h1
          split at h1
          · exact Or.inl h1
          · rcases List.mem_append.1 h1 with h2 | h2
            · exact Or.inl h2
            · exact Or.inr ⟨p, List.mem_cons_self p rest,
                (List.mem_singleton.1 h2).symm⟩
        · exact Or.inr ⟨q, List.mem_cons_of_mem p hq, hv⟩

theorem mem_keys_of_groupLookup_ne (m : List (PinValue × List String))
    (v : PinValue) (h : groupLookup m v ≠ []) : v ∈ usageKeys m := by
  unfold groupLookup at h
  cases hf : m.find? (fun p => decide (p.1 = v)) with
  | none => rw [hf] at h; exact absurd rfl h
  | some q =>
      have hq := List.find?_some hf
      have hmem := List.mem_of_find?_eq_some hf
      simp only [decide_eq_true_eq] at hq
      exact hq ▸ List.mem_map_of_mem Prod.fst hmem

theorem buildUsageMap_lookup (asg : List (String × PinValue)) (v : PinValue)
    (hv : skipVal v = false) :
    groupLookup (buildUsageMap asg) v =
      (asg.filter (fun p => decide (p.2 = v))).map Prod.fst := by
  unfold buildUsageMap
  rw [groupLookup_fold]
  simp [groupLookup, List.find?, hv]

theorem cfl_pins_sublist (m : List (PinValue × List String)) :
    ((m.filterMap (fun p => if 1 < p.2.length then some (mkConflict p) else none)).map
      (fun c => c.pin)).Sublist (usageKeys m) := by
  induction m with
  | nil => simp [usageKeys]
  | cons p rest ih =>
      simp only [List.filterMap_cons, usageKeys, List.map_cons]
      split
      · exact ih.cons _
      · next b hbeq =>
          have hbc : b = mkConflict p := by
            by_cases hlen : 1 < p.2.length
            · rw [if_pos hlen] at hbeq
              exact (Option.some.injEq _ _ ▸ hbeq).symm
            · rw [if_neg hlen] at hbeq
              cases hbeq
          subst hbc
          have hpin : (mkConflict p).pin = p.1 := rfl
          rw [List.map_cons, hpin]
          exact List.Sublist.cons₂ _ ih

theorem mem_cfl_iff (m : List (PinValue × List String)) (c : PinConflict) :
    c ∈ m.filterMap (fun p => if 1 < p.2.length then some (mkConflict p) else none) ↔
    ∃ p ∈ m, 1 < p.2.length ∧ c = mkConflict p := by
  simp only [List.mem_filterMap]
  constructor
  · rintro ⟨p, hp, hf⟩
    split at hf
    · next hlen =>
        exact ⟨p, hp, hlen, (Option.some.injEq _ _ ▸ hf).symm⟩
    · simp at hf
  · rintro ⟨p, hp, hlen, rfl⟩
    exact ⟨p, hp, by rw [if_pos hlen]⟩

theorem pwmCapIssues_ruleType (b : BoardDefinition)
    (act : List (String × PinValue)) :
    ∀ e ∈ pwmCapIssues b act, e.ruleType = "pin_capability" := by
  intro e he
  simp only [pwmCapIssues, List.mem_filterMap] at he
  obtain ⟨name, -, hf⟩ := he
  repeat' split at hf
  all_goals try simp only [Option.some.injEq] at hf
  all_goals first
    | rw [← hf]
    | simp_all

theorem interruptCapIssues_ruleType (b : BoardDefinition)
    (act : List (String × PinValue)) :
    ∀ e ∈ interruptCapIssues b act, e.ruleType = "pin_capability" := by
  intro e he
  simp only [interruptCapIssues, List.mem_filterMap] at he
  obtain ⟨name, -, hf⟩ := he
  repeat' split at hf
  all_goals try simp only [Option.some.injEq] at hf
  all_goals first
    | rw [← hf]
    | simp_all

theorem analogCapIssues_ruleType (b : BoardDefinition)
    (act : List (String × PinValue)) :
    ∀ e ∈ analogCapIssues b act, e.ruleType = "pin_capability" := by
  intro e he
  simp only [analogCapIssues, List.mem_filterMap] at he
  obtain ⟨name, -, hf⟩ := he
  repeat' split at hf
  all_goals try simp only [Option.some.injEq] at hf
  all_goals first
    | rw [← hf]
    | simp_all

theorem rangeIssues_ruleType (b : BoardDefinition)
    (act : List (String × PinValue)) :
    ∀ e ∈ rangeIssues b act, e.ruleType = "pin_range" := by
  intro e he
  simp only [rangeIssues, List.mem_filterMap] at he
  obtain ⟨q, -, hf⟩ := he
  repeat' split at hf
  all_goals try simp only [Option.some.injEq] at hf
  all_goals first
    | rw [← hf]
    | simp_all

theorem validatePins_conflict_errors (db : BoardDatabase) (boardId : String)
    (b : BoardDefinition) (asg : List (String × PinValue))
    (features : List String) (hb : getBoard db boardId = some b) :
    (validatePins db boardId asg features).errors.filter
      (fun e => decide (e.ruleType = "pin_conflict")) =
    (detectPinConflicts db boardId (activePinFilter asg)).map conflictToIssue := by
  simp only [validatePins, hb, List.filter_append]
  have h1 : (pwmCapIssues b (activePinFilter asg)).filter
      (fun e => decide (e.ruleType = "pin_conflict")) = [] :=
    List.filter_eq_nil_iff.2 (fun e he => by
      simp [pwmCapIssues_ruleType b _ e he])
  have h2 : (interruptCapIssues b (activePinFilter asg)).filter
      (fun e => decide (e.ruleType = "pin_conflict")) = [] :=
    List.filter_eq_nil_iff.2 (fun e he => by
      simp [interruptCapIssues_ruleType b _ e he])
  have h3 : (analogCapIssues b (activePinFilter asg)).filter
      (fun e => decide (e.ruleType = "pin_conflict")) = [] :=
    List.filter_eq_nil_iff.2 (fun e he => by
      simp [analogCapIssues_ruleType b _ e he])
  have h4 : (rangeIssues b (activePinFilter asg)).filter
      (fun e => decide (e.ruleType = "pin_conflict")) = [] :=
    List.filter_eq_nil_iff.2 (fun e he => by
      simp [rangeIssues_ruleType b _ e he])
  have h5 : ((detectPinConflicts db boardId (activePinFilter asg)).map
      conflictToIssue).filter (fun e => decide (e.ruleType = "pin_conflict")) =
      (detectPinConflicts db boardId (activePinFilter asg)).map conflictToIssue :=
    List.filter_eq_self.2 (fun e he => by
      simp only [List.mem_map] at he
      obtain ⟨c, -, rfl⟩ := he
      simp [conflictToIssue])
  rw [h1, h2, h3, h4, h5]
  simp

theorem enabled_not_skip (v : PinValue) (h : isEnabledPin v = true) :
    skipVal v = false := by
  simp only [isEnabledPin, Bool.and_eq_true, Bool.not_eq_true',
    decide_eq_false_iff_not] at h
  simp [skipVal]
  exact ⟨h.1.1.1, h.1.2⟩

theorem namesAssigned_nil_of_skip (act : List (String × PinValue))
    (v : PinValue) (hsk : skipVal v = true)
    (hen : ∀ p ∈ act, isEnabledPin p.2 = true) :
    namesAssigned act v = [] := by
  unfold namesAssigned
  rw [List.filter_eq_nil_iff.2]
  · rfl
  · intro p hp
    simp only [decide_eq_true_eq]
    intro hc
    have := enabled_not_skip p.2 (hen p hp)
    rw [hc, hsk] at this
    cases this

/-- C6 (corrected): for every known board, the pin-conflict errors of the
validator are exactly the detected conflicts: their affected lists are the
conflict name lists, conflicted values are pairwise distinct (one error per
value), a value is reported iff two or more enabled logical names share it,
each conflict names all colliding names in map order, and only enabled
values (not 0, not the string 0, not None, not disabled) are ever
reported — the disabled exclusion holds, so two names both assigned 0
give no conflict; but remote-delegated values above 99 are NOT excluded
(see the counterexample), unlike the claim states. -/
theorem claim_C6_pin_conflicts (db : BoardDatabase) (boardId : String)
    (b : BoardDefinition) (asg : List (String × PinValue))
    (features : List String) (hb : getBoard db boardId = some b) :
    ((validatePins db boardId asg features).errors.filter
        (fun e => decide (e.ruleType = "pin_conflict"))).map
        (fun e => e.affectedFeatures) =
      (detectPinConflicts db boardId (activePinFilter asg)).map
        (fun c => c.assignments) ∧
    ((detectPinConflicts db boardId (activePinFilter asg)).map
      (fun c => c.pin)).Nodup ∧
    (∀ v : PinValue,
      (∃ c ∈ detectPinConflicts db boardId (activePinFilter asg), c.pin = v) ↔
        2 ≤ (namesAssigned (activePinFilter asg) v).length) ∧
    (∀ c ∈ detectPinConflicts db boardId (activePinFilter asg),
      c.assignments = namesAssigned (activePinFilter asg) c.pin ∧
      isEnabledPin c.pin = true) := by
  have hdet : detectPinConflicts db boardId (activePinFilter asg) =
      (buildUsageMap (activePinFilter asg)).filterMap
        (fun p => if 1 < p.2.length then some (mkConflict p) else none) := by
    simp [detectPinConflicts, hb]
  have hnd : (usageKeys (buildUsageMap (activePinFilter asg))).Nodup :=
    usage_fold_keys_nodup _ [] (by simp [usageKeys])
  have hne2 : ∀ q ∈ buildUsageMap (activePinFilter asg), q.2 ≠ [] :=
    usage_fold_entries_ne _ [] (by simp)
  have hen : ∀ p ∈ activePinFilter asg, isEnabledPin p.2 = true :=
    fun p hp => by simpa using (List.mem_filter.1 hp).2
  have hkey_en : ∀ v, v ∈ usageKeys (buildUsageMap (activePinFilter asg)) →
      isEnabledPin v = true := by
    intro v hv
    rcases usage_fold_keys_from _ [] v hv with h1 | ⟨q, hq, hqv⟩
    · simp [usageKeys] at h1
    · exact hqv ▸ hen q hq
  have hkey_glookup : ∀ v,
      v ∈ usageKeys (buildUsageMap (activePinFilter asg)) →
      groupLookup (buildUsageMap (activePinFilter asg)) v =
        namesAssigned (activePinFilter asg) v := by
    intro v hv
    exact buildUsageMap_lookup _ v (enabled_not_skip v (hkey_en v hv))
  refine ⟨?_, ?_, ?_, ?_⟩
  · rw [validatePins_conflict_errors db boardId b asg features hb,
      List.map_map]
    rfl
  · rw [hdet]
    exact (cfl_pins_sublist _).nodup hnd
  · intro v
    constructor
    · rintro ⟨c, hc, hcv⟩
      rw [hdet] at hc
      obtain ⟨p, hp, hlen, rfl⟩ := (mem_cfl_iff _ _).1 hc
      have hpin : (mkConflict p).pin = p.1 := rfl
      rw [hpin] at hcv
      subst hcv
      have hkey : p.1 ∈ usageKeys (buildUsageMap (activePinFilter asg)) :=
        List.mem_map_of_mem Prod.fst hp
      have hgl : p.2 = groupLookup (buildUsageMap (activePinFilter asg)) p.1 :=
        entry_eq_groupLookup _ p.1 p.2 (by simpa using hp) hnd
      rw [hgl, hkey_glookup p.1 hkey] at hlen
      omega
    · intro h2
      by_cases hsk : skipVal v
      · rw [namesAssigned_nil_of_skip _ v hsk hen] at h2
        simp at h2
      · have hgl : groupLookup (buildUsageMap (activePinFilter asg)) v =
            namesAssigned (activePinFilter asg) v :=
          buildUsageMap_lookup _ v (by simpa using hsk)
        have hglne : groupLookup (buildUsageMap (activePinFilter asg)) v ≠ [] := by
          rw [hgl]
          intro hc
          rw [hc] at h2
          simp at h2
        have hkey := mem_keys_of_groupLookup_ne _ v hglne
        have hmem := groupLookup_mem _ v hkey
        refine ⟨mkConflict (v, groupLookup (buildUsageMap (activePinFilter asg)) v),
          ?_, rfl⟩
        rw [hdet]
        refine (mem_cfl_iff _ _).2 ⟨_, hmem, ?_, rfl⟩
        show 1 < (groupLookup (buildUsageMap (activePinFilter asg)) v).length
        rw [hgl]
        omega
  · intro c hc
    rw [hdet] at hc
    obtain ⟨p, hp, hlen, rfl⟩ := (mem_cfl_iff _ _).1 hc
    have hkey : p.1 ∈ usageKeys (buildUsageMap (activePinFilter asg)) :=
      List.mem_map_of_mem Prod.fst hp
    have hgl : p.2 = groupLookup (buildUsageMap (activePinFilter asg)) p.1 :=
      entry_eq_groupLookup _ p.1 p.2 (by simpa using hp) hnd
    constructor
    · show p.2 = namesAssigned (activePinFilter asg) p.1
      rw [hgl, hkey_glookup p.1 hkey]
    · show isEnabledPin p.1 = true
      exact hkey_en p.1 hkey

theorem claim_C6_pin_conflicts_counterexample :
    ((validatePins testDb "arduino_mega_2560"
        [("a_pin", PinValue.pint 100), ("b_pin", PinValue.pint 100)]
        []).errors.filter
      (fun e => decide (e.ruleType = "pin_conflict"))).map
      (fun e => e.affectedFeatures) = [["a_pin", "b_pin"]] ∧
    ((validatePins testDb "arduino_mega_2560"
        [("a_pin", PinValue.pint 100), ("b_pin", PinValue.pint 100)]
        []).errors.filter
      (fun e => decide (e.ruleType = "pin_range"))) = [] := by
  refine ⟨by decide, by decide⟩

theorem claim_C6_pin_conflicts_witness :
    ((validatePins testDb "arduino_mega_2560" c6Assignments []).errors.filter
        (fun e => decide (e.ruleType = "pin_conflict"))).map
        (fun e => e.affectedFeatures) =
      (detectPinConflicts testDb "arduino_mega_2560"
        (activePinFilter c6Assignments)).map (fun c => c.assignments) ∧
    ((detectPinConflicts testDb "arduino_mega_2560"
      (activePinFilter c6Assignments)).map (fun c => c.pin)).Nodup ∧
    (∀ v : PinValue,
      (∃ c ∈ detectPinConflicts testDb "arduino_mega_2560"
        (activePinFilter c6Assignments), c.pin = v) ↔
        2 ≤ (namesAssigned (activePinFilter c6Assignments) v).length) ∧
    (∀ c ∈ detectPinConflicts testDb "arduino_mega_2560"
        (activePinFilter c6Assignments),
      c.assignments = namesAssigned (activePinFilter c6Assignments) c.pin ∧
      isEnabledPin c.pin = true) :=
  claim_C6_pin_conflicts testDb "arduino_mega_2560" megaBoard c6Assignments []
    (by decide)

theorem claim_C7_unknown_board (db : BoardDatabase) (boardId : String)
    (asg : List (String × PinValue)) (features : List String)
    (h : getBoard db boardId = none) :
    validatePins db boardId asg features =
      ⟨false, [unknownBoardIssue boardId], [], [], []⟩ := by
  simp [validatePins, h]

theorem claim_C7_unknown_board_witness :
    validatePins ⟨[]⟩ "arduino_uno" [("rotate_cw", PinValue.pint 5)]
        ["FEATURE_SPI"] =
      ⟨false, [unknownBoardIssue "arduino_uno"], [], [], []⟩ :=
  claim_C7_unknown_board ⟨[]⟩ "arduino_uno" [("rotate_cw", PinValue.pint 5)]
    ["FEATURE_SPI"] (by decide)

theorem ascendingWarnAux_length (settingName msg : String) :
    ∀ (l : List (Option ℚ)) (i : Nat),
    (ascendingWarnAux settingName msg i l).length =
      (l.zip l.tail).countP outOfOrderPair
  | [], _ => rfl
  | [a], _ => rfl
  | a :: b :: rest, i => by
      simp only [ascendingWarnAux, List.length_append,
        ascendingWarnAux_length settingName msg (b :: rest) (i + 1)]
      simp only [List.zip_cons_cons, List.tail_cons, List.countP_cons]
      cases a with
      | none => simp [outOfOrderPair]
      | some x =>
          cases b with
          | none => simp [outOfOrderPair]
          | some y =>
              by_cases hxy : x ≥ y
              · simp [outOfOrderPair, hxy, Nat.add_comm]
              · simp [outOfOrderPair, hxy]

theorem claim_C8_ascending_warnings (settingName : String)
    (value : List (Option ℚ)) (rule : ValueRule) (res : ValidationResult)
    (h : rule.consistencyCheck = some "ascending") :
    (applyAscendingCheck settingName value rule res).errors = res.errors ∧
    (applyAscendingCheck settingName value rule res).passed = res.passed ∧
    (applyAscendingCheck settingName value rule res).warnings.length =
      res.warnings.length + (value.zip value.tail).countP outOfOrderPair := by
  refine ⟨rfl, rfl, ?_⟩
  simp only [applyAscendingCheck, List.length_append]
  rw [ascendingWarnings, if_pos h, ascendingWarnAux_length]

theorem claim_C8_ascending_warnings_witness :
    (applyAscendingCheck "AZIMUTH_CALIBRATION_FROM_ARRAY"
        [some 3, some 1, none, some 5]
        ⟨none, none, none, none, some "ascending", none⟩ emptyResult).errors =
      emptyResult.errors ∧
    (applyAscendingCheck "AZIMUTH_CALIBRATION_FROM_ARRAY"
        [some 3, some 1, none, some 5]
        ⟨none, none, none, none, some "ascending", none⟩ emptyResult).passed =
      emptyResult.passed ∧
    (applyAscendingCheck "AZIMUTH_CALIBRATION_FROM_ARRAY"
        [some 3, some 1, none, some 5]
        ⟨none, none, none, none, some "ascending", none⟩ emptyResult).warnings.length =
      emptyResult.warnings.length +
        (([some 3, some 1, none, some 5] :
          List (Option ℚ)).zip ([some 3, some 1, none, some 5] :
            List (Option ℚ)).tail).countP outOfOrderPair :=
  claim_C8_ascending_warnings "AZIMUTH_CALIBRATION_FROM_ARRAY"
    [some 3, some 1, none, some 5]
    ⟨none, none, none, none, some "ascending", none⟩ emptyResult rfl

end K3NG
